import Mathlib

/-!
Shallow embedding of the Rust web crawler in src/src/main.rs.

Strings are modelled as lists of characters. HTML elements are modelled
abstractly: an element carries its concatenated text content and its
attribute list, and a card (or a parsed document) is a function from a
CSS selector to the list of matching descendant elements in document
order — exactly the interface the Rust code consumes from the scraper
crate. Network I/O is modelled by oracles describing the outcome of each
request, and the orchestrator loop of main is embedded as a pure
function producing the list of printed events together with the final
shown-count.
-/

set_option autoImplicit false

namespace Scrape

/-- Characters of a Rust string. -/
abbrev Str := List Char

/-- A CSS selector, kept abstract as its source text. -/
abbrev Selector := String

/-- A matched HTML element: its concatenated text content (as produced by
el.text().collect::<String>()) and its attribute list. -/
structure Elem where
  text : Str
  attrs : List (String × Str)
deriving DecidableEq

/-- Attribute lookup on an element, as scraper's value().attr(name). -/
def Elem.attr (e : Elem) (name : String) : Option Str :=
  (e.attrs.find? (fun p => p.1 == name)).map (fun p => p.2)

/-- A search-result card (an ElementRef): selecting with a CSS selector
yields the matching descendant elements in document order. -/
structure Card where
  select : Selector → List Elem

/-- The parsed listing document: selecting with a CSS selector yields the
matching cards in document order. -/
structure Doc where
  select : Selector → List Card

/-- clean_text from main.rs: s.split_whitespace().collect::<Vec<_>>().join(" ").
wordsAux is the character-level worker realising split_whitespace: it
accumulates the current word and emits it when whitespace is met. -/
def wordsAux : List Char → List Char → List (List Char)
  | [], acc => if acc.isEmpty then [] else [acc]
  | c :: cs, acc =>
    if c.isWhitespace then
      if acc.isEmpty then wordsAux cs [] else acc :: wordsAux cs []
    else
      wordsAux cs (acc ++ [c])

/-- Rust's str::split_whitespace: the whitespace-separated words, with no
empty chunks. -/
def split_whitespace (s : Str) : List Str :=
  wordsAux s []

/-- clean_text from main.rs: collapse whitespace runs to single spaces and
trim, by splitting on whitespace and joining with one space. -/
def clean_text (s : Str) : Str :=
  List.intercalate [' '] (split_whitespace s)

/-- The selector-chain loop of extract_title in main.rs: for each selector in
order, take the first matching descendant; if its normalized text is
non-empty return it, otherwise continue with the remaining selectors. -/
def titleFromSels (item : Card) : List Selector → Option Str
  | [] => none
  | sel :: rest =>
    match (item.select sel).head? with
    | some el =>
      let t := clean_text el.text
      if t.isEmpty then titleFromSels item rest else some t
    | none => titleFromSels item rest

/-- The image-alt fallback block of extract_title in main.rs: first element
matching the image selector; if it has an alt attribute with non-empty
normalized text, that text, else nothing. -/
def altFallback (item : Card) (img_alt_sel : Selector) : Option Str :=
  match (item.select img_alt_sel).head? with
  | some img =>
    match img.attr "alt" with
    | some alt =>
      let t := clean_text alt
      if t.isEmpty then none else some t
    | none => none
  | none => none

/-- extract_title from main.rs: try the title selector chain, then fall back
to the image alt attribute, else nothing. -/
def extract_title (item : Card) (title_sels : List Selector) (img_alt_sel : Selector) : Option Str :=
  match titleFromSels item title_sels with
  | some t => some t
  | none => altFallback item img_alt_sel

/-- The fixed origin prefixed to relative hrefs in extract_link. -/
def origin : Str := "https://www.amazon.com".toList

/-- The literal prefix tested by href.starts_with("http") in extract_link. -/
def httpPre : Str := "http".toList

/-- extract_link from main.rs: for each selector in order, take the first
matching element; if it carries an href attribute, return the href
unchanged when it starts with "http", else prefixed with the fixed
origin; otherwise continue with the remaining selectors. -/
def extract_link (item : Card) : List Selector → Option Str
  | [] => none
  | sel :: rest =>
    match (item.select sel).head? with
    | some a =>
      match a.attr "href" with
      | some href =>
        some (if httpPre.isPrefixOf href then href else origin ++ href)
      | none => extract_link item rest
    | none => extract_link item rest

/-- The Detail struct of main.rs. -/
structure Detail where
  rating_text : Str
  review_count : Str
deriving DecidableEq

/-- Fixed selector for the rating text on a detail page. -/
def rating_sel : Selector := "span.a-icon-alt"

/-- Fixed selector for the review count on a detail page. -/
def review_count_sel : Selector := "#acrCustomerReviewText"

/-- Outcome of the network interaction of one detail-page request: the send
may fail, reading the body may fail, or the parsed document is obtained. -/
inductive FetchOutcome where
  | sendErr (cause : Str)
  | readErr (cause : Str)
  | ok (doc : Card)

/-- fetch_detail from main.rs: a failing send yields the context error
tagged with the url; a failing body read yields its context error; on
success the two fixed-selector fields are extracted independently, each
defaulting to "N/A" when its selector has no match. -/
def fetch_detail (url : Str) (outcome : FetchOutcome) : Except Str Detail :=
  match outcome with
  | .sendErr _ => .error (("request detail failed: ".toList) ++ url)
  | .readErr _ => .error ("read detail body failed".toList)
  | .ok doc =>
    let rating_text :=
      match (doc.select rating_sel).head? with
      | some e => clean_text e.text
      | none => "N/A".toList
    let review_count :=
      match (doc.select review_count_sel).head? with
      | some e => clean_text e.text
      | none => "N/A".toList
    .ok { rating_text := rating_text, review_count := review_count }

/-- The search-result card marker selector of main.rs. -/
def item_sel : Selector := "div[data-component-type=\"s-search-result\"]"

/-- The title selector fallback chain of main.rs. -/
def title_sels : List Selector :=
  ["h2 a span",
   "a.a-link-normal.s-line-clamp-2 span",
   "span.a-size-base-plus.a-color-base.a-text-normal",
   "span.a-size-medium.a-color-base.a-text-normal"]

/-- The image-alt fallback selector of main.rs. -/
def img_alt_sel : Selector := "img.s-image"

/-- The link selector fallback chain of main.rs. -/
def link_sels : List Selector :=
  ["h2 a",
   "a.a-link-normal.s-no-outline",
   "a.a-link-normal[href*=\"/dp/\"]"]

/-- The fixed price selector of main.rs. -/
def price_sel : Selector := "span.a-price span.a-offscreen"

/-- The price binding of the loop body in main.rs: normalized text of the
first price-selector match, sentinel "N/A" when absent. -/
def cardPrice (item : Card) : Str :=
  match (item.select price_sel).head? with
  | some e => clean_text e.text
  | none => "N/A".toList

/-- The link binding of the loop body in main.rs: extract_link over the link
chain, sentinel "N/A" when absent. -/
def cardLink (item : Card) : Str :=
  (extract_link item link_sels).getD ("N/A".toList)

/-- One printed line of the run, in output order. -/
inductive Event where
  | status (s : Str)
  | finalUrl (u : Str)
  | banner
  | report (rank : Nat) (title : Str) (price : Str)
  | link (url : Str)
  | fetch (url : Str)
  | rating (rating_text : Str) (review_count : Str)
  | fetchFailed (msg : Str)
  | guidance
deriving DecidableEq

/-- The for-loop of main.rs over the selected cards, from a given
shown-count: title-less cards are skipped; otherwise the report and link
lines are printed with the incremented count; the loop breaks once the
count reaches 10, and before that each card's detail page is fetched and
its rating lines or its failure line are printed. The network is an
oracle from the requested url to its FetchOutcome. The result is the
event trace together with the final shown-count. -/
def processCards (net : Str → FetchOutcome) : List Card → Nat → List Event × Nat
  | [], shown => ([], shown)
  | item :: rest, shown =>
    match extract_title item title_sels img_alt_sel with
    | none => processCards net rest shown
    | some title =>
      let price := cardPrice item
      let link := cardLink item
      let shown1 := shown + 1
      let header := [Event.report shown1 title price, Event.link link]
      if shown1 ≥ 10 then (header, shown1)
      else
        let dres :=
          match fetch_detail link (net link) with
          | .ok d => Event.rating d.rating_text d.review_count
          | .error e => Event.fetchFailed e
        let r := processCards net rest shown1
        (header ++ Event.fetch link :: dres :: r.1, r.2)

/-- A tokio Semaphore as far as this program exercises it: a permit count
and a closed flag. -/
structure Sem where
  permits : Nat
  closed : Bool
deriving DecidableEq

/-- Semaphore::new: the given number of permits, not closed. -/
def Sem.new (n : Nat) : Sem :=
  { permits := n, closed := false }

/-- The possible outcomes of acquire_owned().await: a permit (with the
successor state), suspension with no permit available, or the
acquire error on a closed semaphore. -/
inductive AcquireRes where
  | ok (after : Sem)
  | wouldBlock
  | closedErr

/-- Acquire on this model of acquire_owned().await: error when closed, a permit when
one is available, otherwise the caller blocks. -/
def Sem.acquire (s : Sem) : AcquireRes :=
  if s.closed then .closedErr
  else if 0 < s.permits then .ok { s with permits := s.permits - 1 }
  else .wouldBlock

/-- Result of running the loop with the in-body semaphore: a completed
trace, a trace cut short by a blocked acquire, or a trace cut short by
the question-mark propagation of an acquire error. -/
inductive SemRun where
  | done (evs : List Event) (shown : Nat)
  | blocked (evs : List Event)
  | err (evs : List Event)
deriving DecidableEq

/-- Prepend already-printed events to the outcome of the remaining run. -/
def SemRun.prepend (evs : List Event) : SemRun → SemRun
  | .done e n => .done (evs ++ e) n
  | .blocked e => .blocked (evs ++ e)
  | .err e => .err (evs ++ e)

/-- The for-loop of main.rs with the semaphore steps made explicit: on each
non-breaking iteration a fresh semaphore with 3 permits is constructed,
one permit is acquired before the detail fetch and dropped after it,
exactly as written in the source. -/
def processCardsSem (net : Str → FetchOutcome) : List Card → Nat → SemRun
  | [], shown => .done [] shown
  | item :: rest, shown =>
    match extract_title item title_sels img_alt_sel with
    | none => processCardsSem net rest shown
    | some title =>
      let price := cardPrice item
      let link := cardLink item
      let shown1 := shown + 1
      let header := [Event.report shown1 title price, Event.link link]
      if shown1 ≥ 10 then .done header shown1
      else
        match (Sem.new 3).acquire with
        | .closedErr => .err header
        | .wouldBlock => .blocked header
        | .ok _after =>
          let dres :=
            match fetch_detail link (net link) with
            | .ok d => Event.rating d.rating_text d.review_count
            | .error e => Event.fetchFailed e
          SemRun.prepend (header ++ [Event.fetch link, dres]) (processCardsSem net rest shown1)

/-- Outcome of the fallible steps of main before the loop: client
construction, the listing request, and the body read may each fail;
otherwise the status, the final url and the parsed document are
obtained. -/
inductive ListingOutcome where
  | buildErr (cause : Str)
  | sendErr (cause : Str)
  | readErr (cause : Str)
  | ok (status : Str) (finalUrl : Str) (doc : Doc)

/-- main from main.rs: each fatal step propagates its context error out of
main (a non-zero process exit); otherwise the status and final-url lines
are printed, the cards matching the marker selector are processed by the
loop, and the guidance line is printed when no card was shown. -/
def mainModel (lo : ListingOutcome) (net : Str → FetchOutcome) : Except Str (List Event) :=
  match lo with
  | .buildErr _ => .error ("build client failed".toList)
  | .sendErr _ => .error ("request failed".toList)
  | .readErr _ => .error ("read body failed".toList)
  | .ok st fu doc =>
    let r := processCards net (doc.select item_sel) 0
    .ok (Event.status st :: Event.finalUrl fu :: Event.banner :: r.1 ++
      (if r.2 = 0 then [Event.guidance] else []))

/-- The yield of one title-chain selector on a card: the normalized text of
its first match, when non-empty. Used to state the short-circuit claims
about extract_title. -/
def selFirstText (item : Card) (sel : Selector) : Option Str :=
  match (item.select sel).head? with
  | some el =>
    let t := clean_text el.text
    if t.isEmpty then none else some t
  | none => none

/-- The yield of one link-chain selector on a card: the href attribute of
its first match, when present. Used to state the short-circuit claims
about extract_link. -/
def selFirstHref (item : Card) (sel : Selector) : Option Str :=
  ((item.select sel).head?).bind (fun a => a.attr "href")

/-- A character allowed after the first character of a URI scheme
(RFC 3986: ALPHA / DIGIT / plus / minus / dot). -/
def isSchemeTailChar (c : Char) : Bool :=
  c.isAlphanum || c = '+' || c = '-' || c = '.'

/-- Scheme-tail scan: scheme-tail characters followed by a colon. -/
def schemeColonScan : Str → Bool
  | [] => false
  | c :: rest => if c = ':' then true else isSchemeTailChar c && schemeColonScan rest

/-- Specification-side definition, following the words of the claim and of
the spec rather than the source: a string starts with a URL scheme when
it begins with a letter followed by scheme characters and a colon
(RFC 3986 scheme syntax). The source instead tests the literal prefix
"http"; the two are compared in the claims about extract_link. -/
def startsWithUriScheme : Str → Bool
  | [] => false
  | c :: rest => c.isAlpha && schemeColonScan rest

/-- Whether an event is the issuing of a detail fetch. -/
def isFetchEv : Event → Bool
  | .fetch _ => true
  | _ => false

/-- The ranks printed on the report lines of a trace, in order. -/
def ranks (evs : List Event) : List Nat :=
  evs.filterMap (fun e =>
    match e with
    | .report r _ _ => some r
    | _ => none)

/-- Every detail fetch in the trace is immediately followed by its own
result line (rating or failure) before any later event: fetches are
strictly sequential, each completing before the next card is processed. -/
def fetchImmediatelyResolved : List Event → Bool
  | [] => true
  | Event.fetch _ :: Event.rating _ _ :: rest => fetchImmediatelyResolved rest
  | Event.fetch _ :: Event.fetchFailed _ :: rest => fetchImmediatelyResolved rest
  | Event.fetch _ :: _ => false
  | _ :: rest => fetchImmediatelyResolved rest

/-! ### Concrete fixtures used by the witness theorems -/

/-- An element with only text content. -/
def textElem (t : String) : Elem :=
  { text := t.toList, attrs := [] }

/-- A card whose h2-a-span selector yields one element with the given text
and whose price selector yields one element with the given price text;
all other selectors yield nothing. -/
def titledCard (t price : String) : Card :=
  ⟨fun s =>
    if s = "h2 a span" then [textElem t]
    else if s = "span.a-price span.a-offscreen" then [textElem price]
    else []⟩

/-- A card matching no selector at all. -/
def blankCard : Card :=
  ⟨fun _ => []⟩

/-- A card whose first link selector yields an anchor with the given href
and no other attribute; other selectors yield nothing. -/
def hrefCard (href : String) : Card :=
  ⟨fun s =>
    if s = "h2 a" then [{ text := [], attrs := [("href", href.toList)] }]
    else []⟩

/-- A card for the title-extraction witnesses: the second chain selector
yields an element with empty text, the third yields a titled element. -/
def chainCard : Card :=
  ⟨fun s =>
    if s = "a.a-link-normal.s-line-clamp-2 span" then [textElem "   "]
    else if s = "span.a-size-base-plus.a-color-base.a-text-normal" then [textElem " Gaming  Laptop "]
    else []⟩

/-- A card whose only usable title is the alt attribute of its image. -/
def altCard : Card :=
  ⟨fun s =>
    if s = "img.s-image" then [{ text := [], attrs := [("alt", " Alt  Title ".toList)] }]
    else []⟩

/-- A network oracle on which every detail request fails at the send step. -/
def failNet : Str → FetchOutcome :=
  fun _ => FetchOutcome.sendErr ("connection refused".toList)

/-- A detail page whose rating selector yields one element and whose
review-count selector yields nothing. -/
def detailDoc : Card :=
  ⟨fun s =>
    if s = "span.a-icon-alt" then [textElem "4.6 out of  5 stars"]
    else []⟩

/-- A network oracle on which every detail request succeeds with detailDoc. -/
def okNet : Str → FetchOutcome :=
  fun _ => FetchOutcome.ok detailDoc

/-- A listing document holding the given cards under the item marker. -/
def docOf (cards : List Card) : Doc :=
  ⟨fun s => if s = item_sel then cards else []⟩

/-! ### Theorems -/

/-- Every word emitted by wordsAux is non-empty and whitespace-free,
provided the accumulated partial word is whitespace-free. -/
theorem wordsAux_all_words {l acc : List Char}
    (hacc : ∀ c ∈ acc, c.isWhitespace = false) :
    ∀ w ∈ wordsAux l acc, w ≠ [] ∧ ∀ c ∈ w, c.isWhitespace = false := by
  induction l generalizing acc with
  | nil =>
    intro w hw
    simp only [wordsAux] at hw
    by_cases h : acc.isEmpty
    · simp [h] at hw
    · rw [if_neg h, List.mem_singleton] at hw
      subst hw
      exact ⟨by simpa [List.isEmpty_iff] using h, hacc⟩
  | cons c cs ih =>
    intro w hw
    simp only [wordsAux] at hw
    by_cases hc : c.isWhitespace
    · rw [if_pos hc] at hw
      by_cases h : acc.isEmpty
      · rw [if_pos h] at hw
        exact ih (by simp) w hw
      · rw [if_neg h] at hw
        rcases List.mem_cons.mp hw with rfl | hw
        · exact ⟨by simpa [List.isEmpty_iff] using h, hacc⟩
        · exact ih (by simp) w hw
    · rw [if_neg hc] at hw
      refine ih ?_ w hw
      intro d hd
      rcases List.mem_append.mp hd with hd | hd
      · exact hacc d hd
      · rw [List.mem_singleton] at hd
        subst hd
        simpa using hc

/-- Feeding a whitespace-free word into wordsAux extends the accumulator. -/
theorem wordsAux_append {w : List Char} (hw : ∀ c ∈ w, c.isWhitespace = false) :
    ∀ (l acc : List Char), wordsAux (w ++ l) acc = wordsAux l (acc ++ w) := by
  induction w with
  | nil =>
    intro l acc
    simp
  | cons c w ih =>
    intro l acc
    have hc : c.isWhitespace = false := hw c (by simp)
    rw [List.cons_append, wordsAux, if_neg (by simp [hc]),
      ih (fun d hd => hw d (by simp [hd])) l (acc ++ [c]), List.append_assoc,
      List.singleton_append]

/-- wordsAux on a leading whitespace character flushes the accumulator. -/
theorem wordsAux_ws_cons {c : Char} (hc : c.isWhitespace = true) (l acc : List Char) :
    wordsAux (c :: l) acc = if acc.isEmpty then wordsAux l [] else acc :: wordsAux l [] := by
  rw [wordsAux, if_pos hc]

/-- intercalate over a two-or-more-element list unfolds one separator. -/
theorem intercalate_cons_cons {α : Type} (s a b : List α) (t : List (List α)) :
    List.intercalate s (a :: b :: t) = a ++ s ++ List.intercalate s (b :: t) := by
  simp [List.intercalate, List.intersperse]

/-- intercalate over a singleton is its element. -/
theorem intercalate_single {α : Type} (s a : List α) : List.intercalate s [a] = a := by
  simp [List.intercalate]

/-- intercalate starting from a non-empty word is non-empty. -/
theorem intercalate_cons_ne_nil {α : Type} (s w : List α) (t : List (List α)) (hw : w ≠ []) :
    List.intercalate s (w :: t) ≠ [] := by
  cases t with
  | nil => simpa [intercalate_single] using hw
  | cons b t =>
    rw [intercalate_cons_cons]
    simp [hw]

/-- Every word of split_whitespace is non-empty and whitespace-free. -/
theorem split_whitespace_words (s : Str) :
    ∀ w ∈ split_whitespace s, w ≠ [] ∧ ∀ c ∈ w, c.isWhitespace = false :=
  fun w hw => wordsAux_all_words (by simp) w hw

/-- split_whitespace is a left inverse of joining non-empty whitespace-free
words with single spaces. -/
theorem split_whitespace_intercalate
    (ws : List (List Char))
    (h : ∀ w ∈ ws, w ≠ [] ∧ ∀ c ∈ w, c.isWhitespace = false) :
    split_whitespace (List.intercalate [' '] ws) = ws := by
  induction ws with
  | nil => simp [split_whitespace, List.intercalate, wordsAux]
  | cons w ws ih =>
    obtain ⟨hw, hwc⟩ := h w (by simp)
    have hwe : w.isEmpty = false := by
      simp [List.isEmpty_iff, hw]
    cases ws with
    | nil =>
      rw [intercalate_single, split_whitespace]
      have h2 := wordsAux_append hwc [] []
      rw [List.append_nil, List.nil_append] at h2
      rw [h2, wordsAux, hwe, if_neg (by simp)]
    | cons b t =>
      rw [intercalate_cons_cons, List.append_assoc, List.singleton_append, split_whitespace,
        wordsAux_append hwc, List.nil_append, wordsAux_ws_cons (by decide), hwe,
        if_neg (by simp)]
      rw [show wordsAux (List.intercalate [' '] (b :: t)) [] =
        split_whitespace (List.intercalate [' '] (b :: t)) from rfl,
        ih (fun x hx => h x (by simp [hx]))]

/-- A whitespace-free string has no two adjacent whitespace characters. -/
theorem chain'_of_no_ws {w : List Char} (h : ∀ c ∈ w, c.isWhitespace = false) :
    List.Chain' (fun a b => ¬(a.isWhitespace = true ∧ b.isWhitespace = true)) w := by
  induction w with
  | nil => simp
  | cons c w ih =>
    rw [List.chain'_cons']
    refine ⟨?_, ih (fun d hd => h d (by simp [hd]))⟩
    intro y _
    have hc := h c (by simp)
    simp [hc]

/-- Joining non-empty whitespace-free words with single spaces yields a
string whose only whitespace characters are single separating spaces,
with no whitespace at either edge. -/
theorem intercalate_clean
    (ws : List (List Char))
    (h : ∀ w ∈ ws, w ≠ [] ∧ ∀ c ∈ w, c.isWhitespace = false) :
    (∀ c ∈ List.intercalate [' '] ws, c.isWhitespace = true → c = ' ') ∧
    List.Chain' (fun a b => ¬(a.isWhitespace = true ∧ b.isWhitespace = true))
      (List.intercalate [' '] ws) ∧
    (∀ c, (List.intercalate [' '] ws).head? = some c → c.isWhitespace = false) ∧
    (∀ c, (List.intercalate [' '] ws).getLast? = some c → c.isWhitespace = false) := by
  induction ws with
  | nil => simp [List.intercalate]
  | cons w ws ih =>
    obtain ⟨hw, hwc⟩ := h w (by simp)
    cases ws with
    | nil =>
      rw [intercalate_single]
      refine ⟨?_, chain'_of_no_ws hwc, ?_, ?_⟩
      · intro c hc hws
        exact absurd hws (by simp [hwc c hc])
      · intro c hc
        exact hwc c (List.mem_of_mem_head? hc)
      · intro c hc
        exact hwc c (List.mem_of_mem_getLast? hc)
    | cons b t =>
      have ht := ih (fun x hx => h x (by simp [hx]))
      have hbne : b ≠ [] := (h b (by simp)).1
      have hIne : List.intercalate [' '] (b :: t) ≠ [] :=
        intercalate_cons_ne_nil [' '] b t hbne
      rw [intercalate_cons_cons, List.append_assoc, List.singleton_append]
      refine ⟨?_, ?_, ?_, ?_⟩
      · intro c hc hws
        rcases List.mem_append.mp hc with hc | hc
        · exact absurd hws (by simp [hwc c hc])
        · rcases List.mem_cons.mp hc with rfl | hc
          · rfl
          · exact ht.1 c hc hws
      · rw [List.chain'_append]
        refine ⟨chain'_of_no_ws hwc, ?_, ?_⟩
        · rw [List.chain'_cons']
          refine ⟨?_, ht.2.1⟩
          intro y hy
          have := ht.2.2.1 y hy
          simp [this]
        · intro x hx y hy
          have hxw := hwc x (List.mem_of_mem_getLast? hx)
          simp [hxw]
      · intro c hc
        rw [List.head?_append_of_ne_nil _ hw] at hc
        exact hwc c (List.mem_of_mem_head? hc)
      · intro c hc
        rw [List.getLast?_append_of_ne_nil _ (by simp :
              (' ' :: List.intercalate [' '] (b :: t)) ≠ [])] at hc
        rw [show (' ' :: List.intercalate [' '] (b :: t)) =
              [' '] ++ List.intercalate [' '] (b :: t) from rfl,
          List.getLast?_append_of_ne_nil _ hIne] at hc
        exact ht.2.2.2 c hc

/-- C5: clean_text returns a string with no two consecutive spaces, whose
whitespace characters are all single spaces, with no leading or trailing
whitespace, and clean_text is idempotent. -/
theorem clean_text_spec (s : Str) :
    (∀ c ∈ clean_text s, c.isWhitespace = true → c = ' ') ∧
    List.Chain' (fun a b => ¬(a = ' ' ∧ b = ' ')) (clean_text s) ∧
    (∀ c, (clean_text s).head? = some c → c.isWhitespace = false) ∧
    (∀ c, (clean_text s).getLast? = some c → c.isWhitespace = false) ∧
    clean_text (clean_text s) = clean_text s := by
  have h := split_whitespace_words s
  have hb := intercalate_clean (split_whitespace s) h
  refine ⟨hb.1, ?_, hb.2.2.1, hb.2.2.2, ?_⟩
  · refine hb.2.1.imp ?_
    intro a b hab hsp
    exact hab ⟨by simp [hsp.1], by simp [hsp.2]⟩
  · show List.intercalate [' '] (split_whitespace (clean_text s)) = clean_text s
    rw [show clean_text s = List.intercalate [' '] (split_whitespace s) from rfl,
      split_whitespace_intercalate _ h]

/-- Witness for C5 at a concrete input: the head of the cleaned string is a
non-whitespace character and cleaning is a no-op on an already cleaned
string. -/
theorem clean_text_spec_witness :
    Char.isWhitespace 'h' = false ∧
    clean_text (clean_text ("  hello   world ".toList)) =
      clean_text ("  hello   world ".toList) :=
  ⟨(clean_text_spec ("  hello   world ".toList)).2.2.1 'h' (by decide),
   (clean_text_spec ("  hello   world ".toList)).2.2.2.2⟩

/-- One step of the title chain, characterised through selFirstText. -/
theorem titleFromSels_cons (item : Card) (sel : Selector) (rest : List Selector) :
    titleFromSels item (sel :: rest) =
      match selFirstText item sel with
      | some t => some t
      | none => titleFromSels item rest := by
  rw [titleFromSels, selFirstText]
  cases (item.select sel).head? with
  | none => rfl
  | some el =>
    by_cases h : (clean_text el.text).isEmpty
    · simp [h]
    · simp [h]

/-- A selector yielding nothing is skipped by the title chain. -/
theorem titleFromSels_cons_none {item : Card} {sel : Selector}
    (h : selFirstText item sel = none) (rest : List Selector) :
    titleFromSels item (sel :: rest) = titleFromSels item rest := by
  rw [titleFromSels_cons, h]

/-- A selector yielding non-empty text short-circuits the title chain. -/
theorem titleFromSels_cons_some {item : Card} {sel : Selector} {t : Str}
    (h : selFirstText item sel = some t) (rest : List Selector) :
    titleFromSels item (sel :: rest) = some t := by
  rw [titleFromSels_cons, h]

/-- A whole run of yield-less selectors is skipped by the title chain. -/
theorem titleFromSels_append_none (item : Card) {pre : List Selector}
    (h : ∀ s ∈ pre, selFirstText item s = none) (l : List Selector) :
    titleFromSels item (pre ++ l) = titleFromSels item l := by
  induction pre with
  | nil => rfl
  | cons a pre ih =>
    rw [List.cons_append, titleFromSels_cons_none (h a (by simp))]
    exact ih (fun s hs => h s (by simp [hs]))

/-- A chain of yield-less selectors yields nothing. -/
theorem titleFromSels_none (item : Card) {sels : List Selector}
    (h : ∀ s ∈ sels, selFirstText item s = none) :
    titleFromSels item sels = none := by
  induction sels with
  | nil => rfl
  | cons a rest ih =>
    rw [titleFromSels_cons_none (h a (by simp))]
    exact ih (fun s hs => h s (by simp [hs]))

/-- C1: extract_title returns the normalized text of the first chain
selector whose first match has non-empty normalized text, regardless of
the later chain selectors and of the fallback; only when every chain
selector yields nothing does it evaluate the image-alt fallback; and
when the fallback yields nothing too the result is none. -/
theorem extract_title_spec (item : Card) (pre post sels : List Selector)
    (sel img : Selector) (t : Str) :
    ((∀ s ∈ pre, selFirstText item s = none) → selFirstText item sel = some t →
      extract_title item (pre ++ sel :: post) img = some t) ∧
    ((∀ s ∈ sels, selFirstText item s = none) →
      extract_title item sels img = altFallback item img) ∧
    ((∀ s ∈ sels, selFirstText item s = none) → altFallback item img = none →
      extract_title item sels img = none) := by
  refine ⟨?_, ?_, ?_⟩
  · intro hpre hsel
    rw [extract_title, titleFromSels_append_none item hpre, titleFromSels_cons_some hsel]
  · intro hall
    rw [extract_title, titleFromSels_none item hall]
  · intro hall halt
    rw [extract_title, titleFromSels_none item hall, halt]

/-- Witness for C1 at concrete cards: a chain whose first two selectors
yield nothing and whose third yields a title short-circuits to that
title; a card with only an image alt falls through to the fallback; a
card matching nothing yields none. -/
theorem extract_title_spec_witness :
    extract_title chainCard
        (["h2 a span", "a.a-link-normal.s-line-clamp-2 span"] ++
          "span.a-size-base-plus.a-color-base.a-text-normal" ::
            ["span.a-size-medium.a-color-base.a-text-normal"])
        img_alt_sel = some ("Gaming Laptop".toList) ∧
    extract_title altCard title_sels img_alt_sel = altFallback altCard img_alt_sel ∧
    extract_title blankCard title_sels img_alt_sel = none :=
  ⟨(extract_title_spec chainCard ["h2 a span", "a.a-link-normal.s-line-clamp-2 span"]
      ["span.a-size-medium.a-color-base.a-text-normal"] []
      "span.a-size-base-plus.a-color-base.a-text-normal" img_alt_sel
      ("Gaming Laptop".toList)).1 (by decide) (by decide),
   (extract_title_spec altCard [] [] title_sels "" img_alt_sel []).2.1 (by decide),
   (extract_title_spec blankCard [] [] title_sels "" img_alt_sel []).2.2
      (by decide) (by decide)⟩

/-- One step of the link chain, characterised through selFirstHref. -/
theorem extract_link_cons (item : Card) (sel : Selector) (rest : List Selector) :
    extract_link item (sel :: rest) =
      match selFirstHref item sel with
      | some href => some (if httpPre.isPrefixOf href then href else origin ++ href)
      | none => extract_link item rest := by
  rw [extract_link, selFirstHref]
  cases (item.select sel).head? with
  | none => rfl
  | some a =>
    cases h : a.attr "href" with
    | none => simp [h]
    | some href => simp [h]

/-- A selector whose first match has no href is skipped by the link chain. -/
theorem extract_link_cons_none {item : Card} {sel : Selector}
    (h : selFirstHref item sel = none) (rest : List Selector) :
    extract_link item (sel :: rest) = extract_link item rest := by
  rw [extract_link_cons, h]

/-- A selector whose first match carries an href short-circuits the link
chain with the resolved url. -/
theorem extract_link_cons_some {item : Card} {sel : Selector} {href : Str}
    (h : selFirstHref item sel = some href) (rest : List Selector) :
    extract_link item (sel :: rest) =
      some (if httpPre.isPrefixOf href then href else origin ++ href) := by
  rw [extract_link_cons, h]

/-- A whole run of href-less selectors is skipped by the link chain. -/
theorem extract_link_append_none (item : Card) {pre : List Selector}
    (h : ∀ s ∈ pre, selFirstHref item s = none) (l : List Selector) :
    extract_link item (pre ++ l) = extract_link item l := by
  induction pre with
  | nil => rfl
  | cons a pre ih =>
    rw [List.cons_append, extract_link_cons_none (h a (by simp))]
    exact ih (fun s hs => h s (by simp [hs]))

/-- C3 counterexample: an href starting with the URL scheme ftp is not
passed through unchanged; extract_link prefixes it with the fixed
origin, because the source tests the literal prefix "http" rather than
the presence of a scheme. -/
theorem extract_link_scheme_counterexample :
    startsWithUriScheme ("ftp://example.com/a".toList) = true ∧
    extract_link (hrefCard "ftp://example.com/a") link_sels =
      some ("https://www.amazon.comftp://example.com/a".toList) ∧
    some ("https://www.amazon.comftp://example.com/a".toList) ≠
      some ("ftp://example.com/a".toList) :=
  ⟨by decide, by decide, by decide⟩

/-- C3 amended: extract_link short-circuits on the first selector whose
first match carries an href, and returns the href unchanged when it
starts with the literal prefix "http", the origin-prefixed href
otherwise. -/
theorem extract_link_spec (item : Card) (pre post : List Selector)
    (sel : Selector) (href : Str) :
    (∀ s ∈ pre, selFirstHref item s = none) → selFirstHref item sel = some href →
    extract_link item (pre ++ sel :: post) =
      some (if httpPre.isPrefixOf href then href else origin ++ href) := by
  intro hpre hsel
  rw [extract_link_append_none item hpre, extract_link_cons_some hsel]

/-- Witness for C3 at a concrete card: the relative href /dp/B000123 is
resolved against the fixed origin. -/
theorem extract_link_spec_witness :
    extract_link (hrefCard "/dp/B000123")
        ([] ++ "h2 a" :: ["a.a-link-normal.s-no-outline", "a.a-link-normal[href*=\"/dp/\"]"]) =
      some (if httpPre.isPrefixOf ("/dp/B000123".toList) then "/dp/B000123".toList
        else origin ++ "/dp/B000123".toList) :=
  extract_link_spec (hrefCard "/dp/B000123") []
    ["a.a-link-normal.s-no-outline", "a.a-link-normal[href*=\"/dp/\"]"]
    "h2 a" ("/dp/B000123".toList) (by decide) (by decide)

/-- C10: a first match carrying an empty href is treated as usable:
extract_link returns exactly the bare origin instead of skipping to
later selectors or returning nothing. -/
theorem extract_link_empty_href (item : Card) (pre post : List Selector) (sel : Selector) :
    (∀ s ∈ pre, selFirstHref item s = none) → selFirstHref item sel = some [] →
    extract_link item (pre ++ sel :: post) = some origin := by
  intro hpre hsel
  rw [extract_link_append_none item hpre, extract_link_cons_some hsel,
    if_neg (by decide), List.append_nil]

/-- Witness for C10 at a concrete card: an anchor with an empty href yields
the bare origin even though later chain selectors remain. -/
theorem extract_link_empty_href_witness :
    extract_link (hrefCard "")
        ([] ++ "h2 a" :: ["a.a-link-normal.s-no-outline", "a.a-link-normal[href*=\"/dp/\"]"]) =
      some origin :=
  extract_link_empty_href (hrefCard "") []
    ["a.a-link-normal.s-no-outline", "a.a-link-normal[href*=\"/dp/\"]"]
    "h2 a" (by decide) (by decide)

/-- The loop on no cards leaves the trace empty and the count unchanged. -/
theorem processCards_nil (net : Str → FetchOutcome) (shown : Nat) :
    processCards net [] shown = ([], shown) := rfl

/-- The loop skips a card without an extractable title. -/
theorem processCards_cons_none {item : Card} (net : Str → FetchOutcome)
    (rest : List Card) (shown : Nat)
    (h : extract_title item title_sels img_alt_sel = none) :
    processCards net (item :: rest) shown = processCards net rest shown := by
  rw [processCards, h]

/-- A titled card that brings the count to the cap is printed with its
report and link lines and the loop breaks with no detail fetch. -/
theorem processCards_cons_break {item : Card} {t : Str} (net : Str → FetchOutcome)
    (rest : List Card) (shown : Nat)
    (h : extract_title item title_sels img_alt_sel = some t)
    (h10 : shown + 1 ≥ 10) :
    processCards net (item :: rest) shown =
      ([Event.report (shown + 1) t (cardPrice item), Event.link (cardLink item)],
        shown + 1) := by
  rw [processCards, h]
  simp [h10]

/-- A titled card below the cap is printed, its detail page is fetched, its
result line is printed, and the loop continues on the remaining cards. -/
theorem processCards_cons_go {item : Card} {t : Str} (net : Str → FetchOutcome)
    (rest : List Card) (shown : Nat)
    (h : extract_title item title_sels img_alt_sel = some t)
    (h10 : ¬ shown + 1 ≥ 10) :
    processCards net (item :: rest) shown =
      (Event.report (shown + 1) t (cardPrice item) :: Event.link (cardLink item) ::
        Event.fetch (cardLink item) ::
        (match fetch_detail (cardLink item) (net (cardLink item)) with
          | .ok d => Event.rating d.rating_text d.review_count
          | .error e => Event.fetchFailed e) ::
        (processCards net rest (shown + 1)).1,
       (processCards net rest (shown + 1)).2) := by
  rw [processCards, h]
  simp [h10]

/-- Invariant of the loop started at a count below the cap: the count only
grows and never passes 10, the printed ranks are the consecutive
integers from the successor of the initial count, the number of detail
fetches omits the one for the card that reaches the cap, and a run that
reaches the cap ends right after the report and link lines of the tenth
shown card. -/
theorem processCards_inv (net : Str → FetchOutcome) (cards : List Card) :
    ∀ shown : Nat, shown ≤ 9 →
    shown ≤ (processCards net cards shown).2 ∧
    (processCards net cards shown).2 ≤ 10 ∧
    ranks (processCards net cards shown).1 =
      List.range' (shown + 1) ((processCards net cards shown).2 - shown) ∧
    (processCards net cards shown).1.countP isFetchEv =
      min ((processCards net cards shown).2 - shown) (9 - shown) ∧
    ((processCards net cards shown).2 = 10 →
      ∃ pre t p l, (processCards net cards shown).1 =
        pre ++ [Event.report 10 t p, Event.link l]) := by
  induction cards with
  | nil =>
    intro shown h9
    simp only [processCards_nil]
    refine ⟨le_refl _, by omega, ?_, ?_, ?_⟩
    · simp [ranks, Nat.sub_self]
    · simp [Nat.sub_self]
    · intro hc
      exfalso
      omega
  | cons item rest ih =>
    intro shown h9
    cases h : extract_title item title_sels img_alt_sel with
    | none =>
      rw [processCards_cons_none net rest shown h]
      exact ih shown h9
    | some t =>
      by_cases h10 : shown + 1 ≥ 10
      · have h9e : shown = 9 := by omega
        subst h9e
        rw [processCards_cons_break net rest 9 h h10]
        refine ⟨by omega, by omega, ?_, ?_, ?_⟩
        · simp [ranks, List.range']
        · rfl
        · intro _
          exact ⟨[], t, cardPrice item, cardLink item, rfl⟩
      · rw [processCards_cons_go net rest shown h h10]
        obtain ⟨ih1, ih2, ih3, ih4, ih5⟩ := ih (shown + 1) (by omega)
        cases hd : fetch_detail (cardLink item) (net (cardLink item)) with
        | ok d =>
          refine ⟨by omega, by omega, ?_, ?_, ?_⟩
          · have hn : (processCards net rest (shown + 1)).2 - shown =
                ((processCards net rest (shown + 1)).2 - (shown + 1)) + 1 := by omega
            simp only [ranks, List.filterMap_cons]
            rw [hn, List.range'_succ]
            simpa [ranks] using ih3
          · simp [List.countP_cons, isFetchEv]
            omega
          · intro hcap
            obtain ⟨pp, tt, ppr, ll, hdecomp⟩ := ih5 hcap
            refine ⟨Event.report (shown + 1) t (cardPrice item) :: Event.link (cardLink item) ::
              Event.fetch (cardLink item) :: Event.rating d.rating_text d.review_count :: pp,
              tt, ppr, ll, ?_⟩
            simp [hdecomp]
        | error e =>
          refine ⟨by omega, by omega, ?_, ?_, ?_⟩
          · have hn : (processCards net rest (shown + 1)).2 - shown =
                ((processCards net rest (shown + 1)).2 - (shown + 1)) + 1 := by omega
            simp only [ranks, List.filterMap_cons]
            rw [hn, List.range'_succ]
            simpa [ranks] using ih3
          · simp [List.countP_cons, isFetchEv]
            omega
          · intro hcap
            obtain ⟨pp, tt, ppr, ll, hdecomp⟩ := ih5 hcap
            refine ⟨Event.report (shown + 1) t (cardPrice item) :: Event.link (cardLink item) ::
              Event.fetch (cardLink item) :: Event.fetchFailed e :: pp,
              tt, ppr, ll, ?_⟩
            simp [hdecomp]

/-- C4: the shown-count of a full run never exceeds 10, and the printed
ranks are exactly 1, 2, ..., shown-count: 1-based, incremented by one
per shown card, strictly increasing and sequential, for any parsed
document and any network behaviour. -/
theorem shown_count_spec (net : Str → FetchOutcome) (cards : List Card) :
    (processCards net cards 0).2 ≤ 10 ∧
    ranks (processCards net cards 0).1 = List.range' 1 ((processCards net cards 0).2) := by
  have h := processCards_inv net cards 0 (by omega)
  exact ⟨h.2.1, by simpa using h.2.2.1⟩

/-- C2: in a full run the number of detail fetches is the shown-count capped
at 9 — so when ten cards are shown only the first nine trigger a detail
fetch — and a run that reaches the cap ends immediately after the
report and link lines of the tenth shown card: the tenth card is printed
but its detail is never fetched, and no later card is processed. -/
theorem cap_before_detail_fetch (net : Str → FetchOutcome) (cards : List Card) :
    (processCards net cards 0).1.countP isFetchEv = min ((processCards net cards 0).2) 9 ∧
    ((processCards net cards 0).2 = 10 →
      ∃ pre t p l, (processCards net cards 0).1 =
        pre ++ [Event.report 10 t p, Event.link l]) := by
  have h := processCards_inv net cards 0 (by omega)
  exact ⟨by simpa using h.2.2.2.1, h.2.2.2.2⟩

/-- Witness for C2 at a concrete run of twelve titled cards: the count
reaches 10 and the trace ends right after the tenth report and link
lines. -/
theorem cap_before_detail_fetch_witness :
    ∃ pre t p l,
      (processCards failNet (List.replicate 12 (titledCard "Laptop" "$5")) 0).1 =
        pre ++ [Event.report 10 t p, Event.link l] :=
  (cap_before_detail_fetch failNet (List.replicate 12 (titledCard "Laptop" "$5"))).2
    (by decide)

/-- C6: a card whose title extraction yields nothing is skipped entirely:
the run on it and the remaining cards is identical to the run on the
remaining cards alone — no report line, no price or link use, no detail
fetch, no count increment. -/
theorem titleless_card_skipped (net : Str → FetchOutcome) (item : Card)
    (rest : List Card) (shown : Nat) :
    extract_title item title_sels img_alt_sel = none →
    processCards net (item :: rest) shown = processCards net rest shown :=
  fun h => processCards_cons_none net rest shown h

/-- Witness for C6 at a concrete title-less card. -/
theorem titleless_card_skipped_witness :
    processCards failNet (blankCard :: [titledCard "Laptop" "$5"]) 0 =
      processCards failNet [titledCard "Laptop" "$5"] 0 :=
  titleless_card_skipped failNet blankCard [titledCard "Laptop" "$5"] 0 (by decide)

/-- C7: fetch_detail on a successfully fetched and parsed body returns a
record whose two fields are, independently, the normalized text of the
first match of their fixed selector, or the sentinel N-slash-A when the
selector has no match; and on a transport (send) failure it returns an
error whose message contains the requested url. -/
theorem fetch_detail_spec (url : Str) (doc : Card) (cause : Str) :
    fetch_detail url (FetchOutcome.ok doc) =
      Except.ok
        { rating_text :=
            match (doc.select rating_sel).head? with
            | some e => clean_text e.text
            | none => "N/A".toList
          review_count :=
            match (doc.select review_count_sel).head? with
            | some e => clean_text e.text
            | none => "N/A".toList } ∧
    (∃ msg, fetch_detail url (FetchOutcome.sendErr cause) = Except.error msg ∧
      url <:+: msg) :=
  ⟨rfl, ⟨"request detail failed: ".toList ++ url, rfl,
    ⟨"request detail failed: ".toList, [], by simp⟩⟩⟩

/-- C8: errors are two-tier: a listing send or body-read failure aborts the
whole run with its error description, while a detail fetch failure below the cap is printed
as a failure line attached to its item, the loop continues on the
remaining cards, and a run whose listing steps succeed exits
successfully whatever the detail outcomes. -/
theorem error_tiers_spec (net : Str → FetchOutcome) (cause st fu : Str) (doc : Doc)
    (item : Card) (rest : List Card) (shown : Nat) (t e : Str) :
    mainModel (ListingOutcome.sendErr cause) net = Except.error ("request failed".toList) ∧
    mainModel (ListingOutcome.readErr cause) net = Except.error ("read body failed".toList) ∧
    (mainModel (ListingOutcome.ok st fu doc) net).isOk = true ∧
    (extract_title item title_sels img_alt_sel = some t → shown + 1 < 10 →
      fetch_detail (cardLink item) (net (cardLink item)) = Except.error e →
      processCards net (item :: rest) shown =
        (Event.report (shown + 1) t (cardPrice item) :: Event.link (cardLink item) ::
          Event.fetch (cardLink item) :: Event.fetchFailed e ::
          (processCards net rest (shown + 1)).1,
         (processCards net rest (shown + 1)).2)) := by
  refine ⟨rfl, rfl, rfl, ?_⟩
  intro h hcap hfd
  rw [processCards_cons_go net rest shown h (by omega), hfd]

/-- Witness for C8 at a concrete failing detail fetch: the failure line is
attached to the first item and the second item is still processed. -/
theorem error_tiers_spec_witness :
    processCards failNet (titledCard "Laptop" "$5" :: [titledCard "Tablet" "$2"]) 0 =
      (Event.report 1 ("Laptop".toList) (cardPrice (titledCard "Laptop" "$5")) ::
        Event.link (cardLink (titledCard "Laptop" "$5")) ::
        Event.fetch (cardLink (titledCard "Laptop" "$5")) ::
        Event.fetchFailed ("request detail failed: N/A".toList) ::
        (processCards failNet [titledCard "Tablet" "$2"] 1).1,
       (processCards failNet [titledCard "Tablet" "$2"] 1).2) :=
  (error_tiers_spec failNet [] [] [] (docOf []) (titledCard "Laptop" "$5")
    [titledCard "Tablet" "$2"] 0 ("Laptop".toList)
    ("request detail failed: N/A".toList)).2.2.2 (by decide) (by omega) (by rfl)

/-- The semaphore-explicit loop skips a card without an extractable title. -/
theorem processCardsSem_cons_none {item : Card} (net : Str → FetchOutcome)
    (rest : List Card) (shown : Nat)
    (h : extract_title item title_sels img_alt_sel = none) :
    processCardsSem net (item :: rest) shown = processCardsSem net rest shown := by
  rw [processCardsSem, h]

/-- The semaphore-explicit loop breaks at the cap exactly as the plain one. -/
theorem processCardsSem_cons_break {item : Card} {t : Str} (net : Str → FetchOutcome)
    (rest : List Card) (shown : Nat)
    (h : extract_title item title_sels img_alt_sel = some t)
    (h10 : shown + 1 ≥ 10) :
    processCardsSem net (item :: rest) shown =
      SemRun.done
        [Event.report (shown + 1) t (cardPrice item), Event.link (cardLink item)]
        (shown + 1) := by
  rw [processCardsSem, h]
  simp [h10]

/-- Below the cap the fresh three-permit semaphore always grants its permit
immediately, and the semaphore-explicit loop continues like the plain
one with the same printed events. -/
theorem processCardsSem_cons_go {item : Card} {t : Str} (net : Str → FetchOutcome)
    (rest : List Card) (shown : Nat)
    (h : extract_title item title_sels img_alt_sel = some t)
    (h10 : ¬ shown + 1 ≥ 10) :
    processCardsSem net (item :: rest) shown =
      SemRun.prepend
        (Event.report (shown + 1) t (cardPrice item) :: Event.link (cardLink item) ::
          Event.fetch (cardLink item) ::
          [match fetch_detail (cardLink item) (net (cardLink item)) with
            | .ok d => Event.rating d.rating_text d.review_count
            | .error e => Event.fetchFailed e])
        (processCardsSem net rest (shown + 1)) := by
  rw [processCardsSem, h]
  simp [h10, Sem.new, Sem.acquire]

/-- C9: the in-loop semaphore has no observable effect: for every network
behaviour, card list and starting count, the loop with the semaphore
construction, permit acquisition and permit drop made explicit completes
with exactly the trace and final count of the loop with them removed;
moreover in that trace every detail fetch is immediately followed by its
own result line, so fetches are strictly sequential, each completing
before the next card is processed. -/
theorem semaphore_no_effect (net : Str → FetchOutcome) (cards : List Card) (shown : Nat) :
    processCardsSem net cards shown =
      SemRun.done (processCards net cards shown).1 (processCards net cards shown).2 ∧
    fetchImmediatelyResolved (processCards net cards shown).1 = true := by
  induction cards generalizing shown with
  | nil => exact ⟨rfl, rfl⟩
  | cons item rest ih =>
    cases h : extract_title item title_sels img_alt_sel with
    | none =>
      rw [processCards_cons_none net rest shown h,
        processCardsSem_cons_none net rest shown h]
      exact ih shown
    | some t =>
      by_cases h10 : shown + 1 ≥ 10
      · rw [processCards_cons_break net rest shown h h10,
          processCardsSem_cons_break net rest shown h h10]
        exact ⟨rfl, rfl⟩
      · rw [processCards_cons_go net rest shown h h10,
          processCardsSem_cons_go net rest shown h h10, (ih (shown + 1)).1]
        cases hd : fetch_detail (cardLink item) (net (cardLink item)) with
        | ok d =>
          refine ⟨rfl, ?_⟩
          show fetchImmediatelyResolved
            (Event.report (shown + 1) t (cardPrice item) :: Event.link (cardLink item) ::
              Event.fetch (cardLink item) :: Event.rating d.rating_text d.review_count ::
              (processCards net rest (shown + 1)).1) = true
          show fetchImmediatelyResolved (processCards net rest (shown + 1)).1 = true
          exact (ih (shown + 1)).2
        | error e =>
          refine ⟨rfl, ?_⟩
          show fetchImmediatelyResolved
            (Event.report (shown + 1) t (cardPrice item) :: Event.link (cardLink item) ::
              Event.fetch (cardLink item) :: Event.fetchFailed e ::
              (processCards net rest (shown + 1)).1) = true
          show fetchImmediatelyResolved (processCards net rest (shown + 1)).1 = true
          exact (ih (shown + 1)).2

end Scrape
